import Mathlib

/-!
Verification development for the resilient structured-output extraction
pipeline of the calari nutrition backend (src/services/food.service.ts and
src/utils/food.ts).  JavaScript values are shallowly embedded: numbers are
rationals extended with NaN and the two infinities, strings are Lean
strings, objects are association lists, and every fallible JavaScript
computation (a computation that can throw) returns an `Option`.
-/

set_option maxRecDepth 10000
set_option exponentiation.threshold 1100

namespace Calari

/-- JavaScript numbers: a finite rational, NaN, or one of the infinities. -/
inductive JSNum where
  | num (q : ℚ)
  | nan
  | inf
  | neginf
  deriving DecidableEq

/-- JavaScript runtime values, as produced by JSON.parse and property access:
JSON values plus `undefined` (the result of a missing-property lookup). -/
inductive JSValue where
  | null
  | undefined
  | bool (b : Bool)
  | num (n : JSNum)
  | str (s : String)
  | arr (elems : List JSValue)
  | obj (fields : List (String × JSValue))

instance : OfNat JSNum 0 := ⟨.num 0⟩
instance : OfNat JSNum 1 := ⟨.num 1⟩

/-- `true` iff the number is neither NaN nor an infinity. -/
def JSNum.isFinite : JSNum → Bool
  | .num _ => true
  | _ => false

/-- JavaScript truthiness of a value. -/
def jsTruthy : JSValue → Bool
  | .null => false
  | .undefined => false
  | .bool b => b
  | .num (.num q) => q != 0
  | .num .nan => false
  | .num .inf => true
  | .num .neginf => true
  | .str s => !s.isEmpty
  | .arr _ => true
  | .obj _ => true

/-- The JavaScript `typeof` operator (`typeof null` is `"object"`). -/
def jsTypeof : JSValue → String
  | .null => "object"
  | .undefined => "undefined"
  | .bool _ => "boolean"
  | .num _ => "number"
  | .str _ => "string"
  | .arr _ => "object"
  | .obj _ => "object"

/-- Whether a value is an array (`Array.isArray`). -/
def isArr : JSValue → Bool
  | .arr _ => true
  | _ => false

/-- Whether a value is `null` or `undefined` (property access on it throws). -/
def isNullish : JSValue → Bool
  | .null => true
  | .undefined => true
  | _ => false

/-- Last-wins association lookup, matching JSON.parse duplicate-key
semantics and object property lookup. -/
def lookupLast (kvs : List (String × JSValue)) (k : String) : Option JSValue :=
  ((kvs.reverse).find? (fun p => p.1 == k)).map (fun p => p.2)

/-- Property access `v[k]` on a non-nullish base: `undefined` when the key is
missing or the base is a primitive or array without that field. -/
def jget (v : JSValue) (k : String) : JSValue :=
  match v with
  | .obj kvs => (lookupLast kvs k).getD .undefined
  | _ => .undefined

/-- Plain property access `v.k`, which throws (returns `none`) on a nullish
base. -/
def jgetStrict (v : JSValue) (k : String) : Option JSValue :=
  match v with
  | .null => none
  | .undefined => none
  | _ => some (jget v k)

/-- Optional-chaining access `v?.k`: `undefined` on a nullish base. -/
def jgetOpt (v : JSValue) (k : String) : JSValue :=
  match v with
  | .null => .undefined
  | .undefined => .undefined
  | _ => jget v k

/-- The JavaScript `a || b` operator. -/
def jsOr (a b : JSValue) : JSValue :=
  if jsTruthy a then a else b

/-! ## Decimal text utilities -/

/-- Numeric value of a list of decimal digit characters. -/
def digitsToNat (l : List Char) : Nat :=
  l.foldl (fun n c => 10 * n + (c.toNat - 48)) 0

/-- Value of a digit run read as the fractional part of a decimal. -/
def fracValue (l : List Char) : ℚ :=
  (digitsToNat l : ℚ) / (10 : ℚ) ^ l.length

/-- Value of text of the shape `\d+`, `\d+.` or `\d+.\d+`, as read by
`parseFloat` on the capture groups of the arithmetic-fixing regexes. -/
def parseDec (l : List Char) : ℚ :=
  let intPart := l.takeWhile (fun c => c != '.')
  let rest := l.dropWhile (fun c => c != '.')
  match rest with
  | _ :: frac => (digitsToNat intPart : ℚ) + fracValue frac
  | [] => (digitsToNat intPart : ℚ)

/-- `Number.prototype.toFixed(2)` on a non-negative rational: round
half-toward-positive-infinity at two fraction digits and render. -/
def toFixed2Nonneg (q : ℚ) : String :=
  let n : ℤ := ⌊q * 100 + 1 / 2⌋
  let m := n.toNat
  let ip := m / 100
  let fp := m % 100
  toString ip ++ "." ++ (if fp < 10 then "0" else "") ++ toString fp

/-- `Number.prototype.toFixed(2)` (negative inputs render a sign then the
absolute value, per the ECMAScript algorithm). -/
def toFixed2 (q : ℚ) : String :=
  if q < 0 then "-" ++ toFixed2Nonneg (-q) else toFixed2Nonneg q

/-! ## Regex-replace engine

Each textual rewrite of the source is a specific regex with a global
replace.  A matcher tries to recognise the regex at the head of the
character list and yields the replacement text together with the input
remaining after the match; the driver scans left to right, emitting
replacements and never rescanning replaced output, exactly like
`String.prototype.replace` with a `g` flag. -/

/-- One point-wise matcher step: replacement characters and the rest of the
input after the match. -/
abbrev Matcher := List Char → Option (List Char × List Char)

/-- Global-replace driver: at each position try the matcher; on a match emit
the replacement and continue after the match, otherwise keep the character.
The fuel is an upper bound on the number of steps; every matcher consumes at
least one character, so fuel equal to the input length suffices. -/
def replaceDriver (m : Matcher) : Nat → List Char → List Char
  | 0, l => l
  | _ + 1, [] => []
  | fuel + 1, c :: t =>
    match m (c :: t) with
    | some (rep, rest) => rep ++ replaceDriver m fuel rest
    | none => c :: replaceDriver m fuel t

/-- Run a global replace over a string. -/
def runReplace (m : Matcher) (s : String) : String :=
  ⟨replaceDriver m s.data.length s.data⟩

/-- `true` iff the matcher fails at every position of the list. -/
def noMatchIn (m : Matcher) : List Char → Bool
  | [] => true
  | l@(_ :: t) => (m l).isNone && noMatchIn m t

/-! ## The arithmetic-expression normalizer (`fixMacrosInJsonString`) -/

/-- Greedy match of one `\d+\.?\d*` capture group (nothing required after
it), returning the group and the rest. -/
def numGroup (l : List Char) : Option (List Char × List Char) :=
  let d1 := l.takeWhile Char.isDigit
  let r1 := l.dropWhile Char.isDigit
  if d1.isEmpty then none
  else
    match r1 with
    | '.' :: r2 =>
      some (d1 ++ '.' :: r2.takeWhile Char.isDigit, r2.dropWhile Char.isDigit)
    | _ => some (d1, r1)

/-- Matcher for `(\d+\.?\d*)op(\d+\.?\d*)`: the first group is greedy but
backtracks over its optional dot so that the literal operator can follow;
`f` computes the replacement text from the two parsed groups. -/
def matchOp (op : Char) (f : ℚ → ℚ → String) (l : List Char) :
    Option (List Char × List Char) :=
  let d1 := l.takeWhile Char.isDigit
  let r1 := l.dropWhile Char.isDigit
  let tryTail : List Char → List Char → Option (List Char × List Char) :=
    fun g1 rest =>
      match rest with
      | c :: r4 =>
        if c = op then
          match numGroup r4 with
          | some (g2, rest') => some ((f (parseDec g1) (parseDec g2)).data, rest')
          | none => none
        else none
      | [] => none
  if d1.isEmpty then none
  else
    match r1 with
    | '.' :: r2 =>
      let d2 := r2.takeWhile Char.isDigit
      let r3 := r2.dropWhile Char.isDigit
      match tryTail (d1 ++ '.' :: d2) r3 with
      | some res => some res
      | none => tryTail d1 r1
    | _ => tryTail d1 r1

/-- Clamped subtraction used by the subtraction rewrite: `Math.max(0, a-b)`. -/
def subResult (a b : ℚ) : ℚ := max 0 (a - b)

/-- Replacement for the addition rewrite. -/
def addFix (a b : ℚ) : String := toFixed2 (a + b)

/-- Replacement for the subtraction rewrite (clamped at 0). -/
def subFix (a b : ℚ) : String := toFixed2 (subResult a b)

/-- Replacement for the multiplication rewrite. -/
def mulFix (a b : ℚ) : String := toFixed2 (a * b)

/-- Replacement for the division rewrite: a zero divisor yields the literal
`0.00`. -/
def divFix (a b : ℚ) : String :=
  if b = 0 then "0.00" else toFixed2 (a / b)

/-- `fixMacrosInJsonString` of src/utils/food.ts (identical copy at
src/services/food.service.ts:62): rewrite inline arithmetic on
digit sequences, addition first, then subtraction, multiplication and
division, each as a global textual replace. -/
def fixMacrosInJsonString (jsonStr : String) : String :=
  runReplace (matchOp '/' divFix)
    (runReplace (matchOp '*' mulFix)
      (runReplace (matchOp '-' subFix)
        (runReplace (matchOp '+' addFix) jsonStr)))

/-! ## The structural repairer (`repairJsonString`) -/

/-- The single-quote character, written by code point. -/
def squote : Char := Char.ofNat 39

/-- Characters matched by the JavaScript `\s` class (the ASCII portion,
which is all the source ever feeds it). -/
def isJsWs (c : Char) : Bool :=
  c = ' ' || c = '\t' || c = '\n' || c = '\r' || c = '\x0b' || c = '\x0c'

/-- Matcher for `,(\s*[}\]])` replaced by `$1`: drop a comma that directly
precedes (up to whitespace) a closing brace or bracket. -/
def matchTrailingComma : Matcher
  | ',' :: t =>
    let ws := t.takeWhile isJsWs
    let r := t.dropWhile isJsWs
    match r with
    | c :: r' => if c = '\x7d' || c = ']' then some (ws ++ [c], r') else none
    | [] => none
  | _ => none

/-- Matcher for `[\x00-\x1f]+` replaced by the empty string: strip a run of
control characters. -/
def matchControlRun : Matcher
  | c :: t =>
    if c.toNat < 32 then
      some ([], (c :: t).dropWhile (fun d => d.toNat < 32))
    else none
  | [] => none

/-- First character of an ECMAScript-style identifier. -/
def isIdentStart (c : Char) : Bool :=
  c.isAlpha || c = '_' || c = '$'

/-- Subsequent character of an ECMAScript-style identifier. -/
def isIdentChar (c : Char) : Bool :=
  c.isAlphanum || c = '_' || c = '$'

/-- Matcher for `([{,]\s*)([a-zA-Z_$][a-zA-Z0-9_$]*)\s*:` replaced by
`$1"$2":`: quote a bare object key that follows an opening brace or a
comma. -/
def matchBareKey : Matcher
  | c :: t =>
    if c = '\x7b' || c = ',' then
      let ws := t.takeWhile isJsWs
      let r := t.dropWhile isJsWs
      match r with
      | i0 :: r1 =>
        if isIdentStart i0 then
          let idRest := r1.takeWhile isIdentChar
          let r2 := r1.dropWhile isIdentChar
          match r2.dropWhile isJsWs with
          | ':' :: r4 =>
            some (c :: ws ++ '"' :: i0 :: idRest ++ ['"', ':'], r4)
          | _ => none
        else none
      | [] => none
    else none
  | [] => none

/-- Matcher for `\\'` replaced by `'`: unescape a stray escaped single
quote. -/
def matchEscapedQuote : Matcher
  | c :: d :: t => if c = '\\' && d = squote then some ([squote], t) else none
  | _ => none

/-- Suffix of the list starting at the first occurrence of `c`, if any. -/
def dropUntil (c : Char) : List Char → Option (List Char)
  | [] => none
  | x :: t => if x = c then some (x :: t) else dropUntil c t

/-- The prefix of `l` ending at the last `\x7d`, if one exists. -/
def trimAfterLastClose (l : List Char) : Option (List Char) :=
  (dropUntil '\x7d' l.reverse).map List.reverse

/-- `match(/\{[\s\S]*\}/)`: the span from the first `\x7b` to the last
`\x7d` after it, if such a span exists. -/
def braceSpanExtract (l : List Char) : Option (List Char) :=
  match dropUntil '\x7b' l with
  | none => none
  | some s => trimAfterLastClose s

/-- The brace-isolation step of the repairer: keep only the outermost brace
span, or leave the text unchanged when no such span exists. -/
def braceSpan (l : List Char) : List Char :=
  (braceSpanExtract l).getD l

/-- `repairJsonString` of src/utils/food.ts (identical copy at
src/services/food.service.ts:95): four global rewrites, then isolation of
the outermost brace span. -/
def repairJsonString (jsonStr : String) : String :=
  ⟨braceSpan
    (runReplace matchEscapedQuote
      (runReplace matchBareKey
        (runReplace matchControlRun
          (runReplace matchTrailingComma jsonStr)))).data⟩

/-! ## The numeric sanitizer (`sanitizeNumericValue`) -/

/-- `value.replace(/[^\d.]/g, '')`: keep only digits and dots. -/
def cleanNumericChars (s : String) : List Char :=
  s.data.filter (fun c => c.isDigit || c = '.')

/-- `parseFloat` on a digits-and-dots-only string: the longest numeric
prefix (`\d+`, `\d+.\d*` or `.\d+`), or NaN (`none`) if there is none. -/
def parseFloatCleaned : List Char → Option ℚ
  | [] => none
  | '.' :: t =>
    let d := t.takeWhile Char.isDigit
    if d.isEmpty then none else some (fracValue d)
  | c :: t =>
    if c.isDigit then
      let l := c :: t
      let d1 := l.takeWhile Char.isDigit
      match l.dropWhile Char.isDigit with
      | '.' :: t2 => some ((digitsToNat d1 : ℚ) + fracValue (t2.takeWhile Char.isDigit))
      | _ => some (digitsToNat d1)
    else none

/-- The IEEE-754 double overflow boundary: an exact value whose magnitude
reaches `2^1024 - 2^970` (the round-to-nearest midpoint above the largest
finite double) converts to an infinity. -/
def jsOverflowBound : ℚ := ((2 ^ 1024 - 2 ^ 970 : ℕ) : ℚ)

/-- Conversion of an exactly-computed rational to a JavaScript number:
magnitudes at or beyond the overflow boundary become the corresponding
infinity, as `parseFloat`, `Number` and `JSON.parse` overflow in the source;
in-range values are kept exact (mantissa rounding is not modelled — no
pipeline value in the claims distinguishes it). -/
def jsNumOfRat (q : ℚ) : JSNum :=
  if jsOverflowBound ≤ q then .inf
  else if q ≤ -jsOverflowBound then .neginf
  else .num q

/-- Render a JavaScript number to text, as `String(n)` does.  Finite values
from JSON always have a finite decimal expansion; a denominator not of the
form `2^a 5^b` is rendered with 20 truncated fraction digits (such values
never arise from the pipeline's inputs). -/
def numToString (n : JSNum) : String :=
  match n with
  | .nan => "NaN"
  | .inf => "Infinity"
  | .neginf => "-Infinity"
  | .num q =>
    let sign := if q < 0 then "-" else ""
    let a := |q|
    let ip := ⌊a⌋.toNat
    let frac := a - ip
    if frac = 0 then sign ++ toString ip
    else
      let digits : List Char := (List.range 20).foldl
        (fun (st : List Char × ℚ) _ =>
          let x := st.2 * 10
          let d := ⌊x⌋.toNat
          (st.1 ++ [Char.ofNat (48 + d % 10)], x - ⌊x⌋))
        (([] : List Char), frac) |>.1
      let trimmed := (digits.reverse.dropWhile (fun c => c = '0')).reverse
      sign ++ toString ip ++ "." ++ String.mk trimmed

/-- `ToString` coercion of an array element inside `Array.prototype.join`:
nullish values become empty text. -/
def arrElemToString (fuel : Nat) (v : JSValue) : String :=
  match fuel, v with
  | 0, _ => ""
  | _ + 1, .null => ""
  | _ + 1, .undefined => ""
  | _ + 1, .bool b => if b then "true" else "false"
  | _ + 1, .num n => numToString n
  | _ + 1, .str s => s
  | fuel + 1, .arr xs =>
    String.intercalate "," (xs.map (arrElemToString fuel))
  | _ + 1, .obj _ => "[object Object]"

/-- `Array.prototype.toString`: elements joined with commas. -/
def arrToString (xs : List JSValue) : String :=
  String.intercalate "," (xs.map (arrElemToString 100))

/-- Strict ECMAScript `StrDecimalLiteral` parse used by `ToNumber` on a
string: optional sign, then `d+`, `d+.d*`, `.d+`, with an optional decimal
exponent; the whole text must be consumed. -/
def parseSignedDec (l : List Char) : Option ℚ :=
  let core : List Char → Option (ℚ × List Char) := fun l1 =>
    match l1 with
    | '.' :: t =>
      let d := t.takeWhile Char.isDigit
      if d.isEmpty then none else some (fracValue d, t.dropWhile Char.isDigit)
    | c :: _ =>
      if c.isDigit then
        let d1 := l1.takeWhile Char.isDigit
        match l1.dropWhile Char.isDigit with
        | '.' :: t2 =>
          some ((digitsToNat d1 : ℚ) + fracValue (t2.takeWhile Char.isDigit),
            t2.dropWhile Char.isDigit)
        | r => some ((digitsToNat d1 : ℚ), r)
      else none
    | [] => none
  let withExp : ℚ → List Char → Option ℚ := fun q r =>
    match r with
    | [] => some q
    | e :: t =>
      if e = 'e' || e = 'E' then
        let (eneg, t1) :=
          match t with
          | '-' :: t' => (true, t')
          | '+' :: t' => (false, t')
          | _ => (false, t)
        let d := t1.takeWhile Char.isDigit
        if d.isEmpty || !(t1.dropWhile Char.isDigit).isEmpty then none
        else
          let k := digitsToNat d
          some (if eneg then q / (10 : ℚ) ^ k else q * (10 : ℚ) ^ k)
      else none
  let (neg, l1) :=
    match l with
    | '-' :: t => (true, t)
    | '+' :: t => (false, t)
    | _ => (false, l)
  match core l1 with
  | some (q, r) => (withExp q r).map (fun q' => if neg then -q' else q')
  | none => none

/-- `ToNumber` on a string: trim whitespace, empty text is 0, recognise
signed decimals and the infinity literals, everything else is NaN. -/
def strToNumber (s : String) : JSNum :=
  let t := ((s.data.dropWhile isJsWs).reverse.dropWhile isJsWs).reverse
  if t.isEmpty then .num 0
  else
    match parseSignedDec t with
    | some q => jsNumOfRat q
    | none =>
      if t = "Infinity".data || t = "+Infinity".data then .inf
      else if t = "-Infinity".data then .neginf
      else .nan

/-- The `Number(value)` coercion: arrays convert through their joined text,
plain objects are NaN. -/
def toNumber : JSValue → JSNum
  | .undefined => .nan
  | .null => .num 0
  | .bool b => if b then .num 1 else .num 0
  | .num n => n
  | .str s => strToNumber s
  | .arr xs => strToNumber (arrToString xs)
  | .obj _ => .nan

/-- The `isNaN(num) ? 0 : Math.max(0, num)` tail shared by both sanitizer
branches (`Math.max(0, Infinity)` is `Infinity`, `Math.max(0, -Infinity)`
is 0). -/
def clampNum (n : JSNum) : JSNum :=
  match n with
  | .nan => .num 0
  | .inf => .inf
  | .neginf => .num 0
  | .num q => .num (max 0 q)

/-- `sanitizeNumericValue` of src/utils/food.ts (identical copy at
src/services/food.service.ts:122): strings are stripped to digits and dots
and parsed with `parseFloat` (overflowing to `Infinity` beyond the double
range); other values go through `Number`; NaN maps to 0 and the result is
clamped with `Math.max(0, ·)`. -/
def sanitizeNumericValue (v : JSValue) : JSNum :=
  match v with
  | .str s =>
    match parseFloatCleaned (cleanNumericChars s) with
    | none => .num 0
    | some q => clampNum (jsNumOfRat q)
  | _ => clampNum (toNumber v)

/-! ## JSON.parse -/

/-- JSON insignificant whitespace. -/
def jsonWs (c : Char) : Bool :=
  c = ' ' || c = '\t' || c = '\n' || c = '\r'

/-- Skip JSON whitespace. -/
def skipWs (l : List Char) : List Char :=
  l.dropWhile jsonWs

/-- Value of a hexadecimal digit, if it is one. -/
def hexVal (c : Char) : Option Nat :=
  if c.isDigit then some (c.toNat - 48)
  else if 'a' ≤ c && c ≤ 'f' then some (c.toNat - 87)
  else if 'A' ≤ c && c ≤ 'F' then some (c.toNat - 55)
  else none

/-- Combine four hex digits of a `\uXXXX` escape. -/
def hex4 (a b c d : Char) : Option Nat :=
  match hexVal a, hexVal b, hexVal c, hexVal d with
  | some x, some y, some z, some w => some (4096 * x + 256 * y + 16 * z + w)
  | _, _, _, _ => none

/-- Body of a JSON string after the opening quote: content and the rest of
the input after the closing quote.  Raw control characters are rejected, as
JSON.parse rejects them. -/
def pStringBody : Nat → List Char → Option (List Char × List Char)
  | 0, _ => none
  | _ + 1, [] => none
  | fuel + 1, c :: t =>
    if c = '"' then some ([], t)
    else if c = '\\' then
      match t with
      | e :: t2 =>
        let esc : Option (Char × List Char) :=
          if e = '"' then some ('"', t2)
          else if e = '\\' then some ('\\', t2)
          else if e = '/' then some ('/', t2)
          else if e = 'b' then some ('\x08', t2)
          else if e = 'f' then some ('\x0c', t2)
          else if e = 'n' then some ('\n', t2)
          else if e = 'r' then some ('\r', t2)
          else if e = 't' then some ('\t', t2)
          else if e = 'u' then
            match t2 with
            | h1 :: h2 :: h3 :: h4c :: t3 =>
              (hex4 h1 h2 h3 h4c).map (fun n => (Char.ofNat n, t3))
            | _ => none
          else none
        match esc with
        | some (ch, t') =>
          (pStringBody fuel t').map (fun p => (ch :: p.1, p.2))
        | none => none
      | [] => none
    else if c.toNat < 32 then none
    else (pStringBody fuel t).map (fun p => (c :: p.1, p.2))

/-- Strict JSON number: `-?(0|[1-9]\d*)(\.\d+)?([eE][+-]?\d+)?`. -/
def pNumber (l : List Char) : Option (ℚ × List Char) :=
  let (neg, l1) :=
    match l with
    | '-' :: t => (true, t)
    | _ => (false, l)
  let intPart : Option (Nat × List Char) :=
    match l1 with
    | '0' :: t => some (0, t)
    | c :: t =>
      if c.isDigit && c != '0' then
        some (digitsToNat ((c :: t).takeWhile Char.isDigit),
          (c :: t).dropWhile Char.isDigit)
      else none
    | [] => none
  match intPart with
  | none => none
  | some (ip, r1) =>
    let fracPart : Option (ℚ × List Char) :=
      match r1 with
      | '.' :: t2 =>
        let d := t2.takeWhile Char.isDigit
        if d.isEmpty then none
        else some ((ip : ℚ) + fracValue d, t2.dropWhile Char.isDigit)
      | _ => some ((ip : ℚ), r1)
    match fracPart with
    | none => none
    | some (q, r2) =>
      let expPart : Option (ℚ × List Char) :=
        match r2 with
        | e :: t3 =>
          if e = 'e' || e = 'E' then
            let (eneg, t4) :=
              match t3 with
              | '-' :: t' => (true, t')
              | '+' :: t' => (false, t')
              | _ => (false, t3)
            let d := t4.takeWhile Char.isDigit
            if d.isEmpty then none
            else
              let k := digitsToNat d
              some (if eneg then q / (10 : ℚ) ^ k else q * (10 : ℚ) ^ k,
                t4.dropWhile Char.isDigit)
          else some (q, r2)
        | [] => some (q, r2)
      expPart.map (fun p => (if neg then -p.1 else p.1, p.2))

mutual

/-- Parse one JSON value (leading whitespace allowed). -/
def pValue : Nat → List Char → Option (JSValue × List Char)
  | 0, _ => none
  | fuel + 1, l =>
    match skipWs l with
    | [] => none
    | c :: t =>
      if c = '\x7b' then
        match skipWs t with
        | '\x7d' :: r => some (.obj [], r)
        | r => (pMembers fuel r).map (fun p => (.obj p.1, p.2))
      else if c = '[' then
        match skipWs t with
        | ']' :: r => some (.arr [], r)
        | r => (pItems fuel r).map (fun p => (.arr p.1, p.2))
      else if c = '"' then
        (pStringBody (t.length + 1) t).map (fun p => (.str ⟨p.1⟩, p.2))
      else if c = 't' then
        match t with
        | 'r' :: 'u' :: 'e' :: r => some (.bool true, r)
        | _ => none
      else if c = 'f' then
        match t with
        | 'a' :: 'l' :: 's' :: 'e' :: r => some (.bool false, r)
        | _ => none
      else if c = 'n' then
        match t with
        | 'u' :: 'l' :: 'l' :: r => some (.null, r)
        | _ => none
      else
        (pNumber (c :: t)).map (fun p => (.num (jsNumOfRat p.1), p.2))

/-- Parse the members of a non-empty JSON object, positioned after the
opening brace and any whitespace. -/
def pMembers : Nat → List Char → Option (List (String × JSValue) × List Char)
  | 0, _ => none
  | fuel + 1, l =>
    match l with
    | '"' :: t =>
      match pStringBody (t.length + 1) t with
      | none => none
      | some (k, r) =>
        match skipWs r with
        | ':' :: r2 =>
          match pValue fuel r2 with
          | none => none
          | some (v, r3) =>
            match skipWs r3 with
            | ',' :: r4 =>
              (pMembers fuel (skipWs r4)).map
                (fun p => ((⟨k⟩, v) :: p.1, p.2))
            | '\x7d' :: r4 => some ([(⟨k⟩, v)], r4)
            | _ => none
        | _ => none
    | _ => none

/-- Parse the items of a non-empty JSON array, positioned after the opening
bracket. -/
def pItems : Nat → List Char → Option (List JSValue × List Char)
  | 0, _ => none
  | fuel + 1, l =>
    match pValue fuel l with
    | none => none
    | some (v, r) =>
      match skipWs r with
      | ',' :: r2 => (pItems fuel r2).map (fun p => (v :: p.1, p.2))
      | ']' :: r2 => some ([v], r2)
      | _ => none

end

/-- `JSON.parse`: parse one value and require only whitespace to remain.
Twice the character count (plus slack) bounds the fuel the mutual parser can
consume. -/
def jsonParse (s : String) : Option JSValue :=
  match pValue (2 * s.data.length + 2) s.data with
  | some (v, r) => if (skipWs r).isEmpty then some v else none
  | none => none

/-- The objects of an object value (empty for every other value). -/
def objFields : JSValue → List (String × JSValue)
  | .obj kvs => kvs
  | _ => []

/-! ## Domain shape (src/types/index.ts)

The TypeScript interfaces declare `string`/`number` fields, but the shaping
code can place any runtime value in `name`, `quantity`, `reason` and
`recommendedQuantity` (a truthy non-string survives `||`), so those fields
are embedded as `JSValue`; macro fields always come out of
`sanitizeNumericValue` and are `JSNum`. -/

/-- A calories/protein/carbs/fat quadruple. -/
structure MacroSet where
  calories : JSNum
  protein : JSNum
  carbs : JSNum
  fat : JSNum

/-- One analysed food item. -/
structure FoodItem where
  name : JSValue
  quantity : JSValue
  macros : MacroSet

/-- One meal-completion suggestion item (`MealSuggestion` in the types). -/
structure MealSuggestion where
  name : JSValue
  quantity : JSValue
  macros : MacroSet
  reason : JSValue

/-- The optional suggestion block of a `FoodAnalysis`. -/
structure Suggestion where
  shouldEat : Bool
  reason : JSValue
  recommendedQuantity : JSValue
  alternatives : List JSValue
  mealCompletionSuggestions : Option (List MealSuggestion)
  completeMealMacros : Option MacroSet

/-- The strict result type of the extraction pipeline. -/
structure FoodAnalysis where
  foodItems : List FoodItem
  totalMacros : MacroSet
  suggestion : Option Suggestion

/-- The all-zero macro set. -/
def zeroMacros : MacroSet := ⟨.num 0, .num 0, .num 0, .num 0⟩

/-! ## Result shaping (food.service.ts:552-604) -/

/-- `x || 0` before sanitization: missing or falsy fields default to the
number 0. -/
def orZero (v : JSValue) : JSValue :=
  jsOr v (.num (.num 0))

/-- Shape one macro object: each of the four fields is looked up with
optional chaining, defaulted when falsy and sanitized independently. -/
def shapeMacros (m : JSValue) : MacroSet :=
  { calories := sanitizeNumericValue (orZero (jgetOpt m "calories"))
    protein := sanitizeNumericValue (orZero (jgetOpt m "protein"))
    carbs := sanitizeNumericValue (orZero (jgetOpt m "carbs"))
    fat := sanitizeNumericValue (orZero (jgetOpt m "fat")) }

/-- Shape one raw food item.  Accessing `.name` on a nullish element throws
in the source, which surfaces here as `none`. -/
def shapeFoodItem (item : JSValue) : Option FoodItem :=
  match item with
  | .null => none
  | .undefined => none
  | _ =>
    some
      { name := jsOr (jget item "name") (.str "Unknown food")
        quantity := jsOr (jget item "quantity") (.str "Unknown quantity")
        macros := shapeMacros (jget item "macros") }

/-- Shape a list of raw food items; any nullish element aborts the whole
map, as the thrown TypeError does. -/
def shapeItems : List JSValue → Option (List FoodItem)
  | [] => some []
  | x :: xs =>
    match shapeFoodItem x with
    | none => none
    | some i => (shapeItems xs).map (fun l => i :: l)

/-- Shape one `complementaryFoods` entry. -/
def shapeMealItem (food : JSValue) : Option MealSuggestion :=
  match food with
  | .null => none
  | .undefined => none
  | _ =>
    some
      { name := jsOr (jget food "name") (.str "Unknown food")
        quantity := jsOr (jget food "quantity") (.str "Unknown quantity")
        macros := shapeMacros (jget food "macros")
        reason := jsOr (jget food "reason") (.str "Complements your meal") }

/-- Shape a list of `complementaryFoods` entries. -/
def shapeMealItems : List JSValue → Option (List MealSuggestion)
  | [] => some []
  | x :: xs =>
    match shapeMealItem x with
    | none => none
    | some i => (shapeMealItems xs).map (fun l => i :: l)

/-- Shape the suggestion block (the caller has checked it is truthy, hence
not nullish, so its own field accesses cannot throw). -/
def shapeSuggestion (sg : JSValue) : Option Suggestion :=
  let base : Suggestion :=
    { shouldEat := jsTruthy (jget sg "shouldEat")
      reason := jsOr (jget sg "reason") (.str "No specific advice provided")
      recommendedQuantity := jget sg "recommendedQuantity"
      alternatives :=
        match jget sg "alternatives" with
        | .arr xs => xs
        | _ => []
      mealCompletionSuggestions := none
      completeMealMacros := none }
  let withCf : Option Suggestion :=
    match jget sg "complementaryFoods" with
    | .arr xs =>
      (shapeMealItems xs).map
        (fun ms => { base with mealCompletionSuggestions := some ms })
    | _ => some base
  withCf.map
    (fun sgg =>
      let cmm := jget sg "completeMealMacros"
      if jsTruthy cmm then { sgg with completeMealMacros := some (shapeMacros cmm) }
      else sgg)

/-- Build the `FoodAnalysis` once `foodItems` is known to be an array: shape
the items (which can throw), shape `totalMacros`, and attach the suggestion
block when the context asks for one and the decode carries a truthy one. -/
def buildResultItems (parsed : JSValue) (hasContext : Bool)
    (xs : List JSValue) : Option FoodAnalysis :=
  match shapeItems xs with
  | none => none
  | some fis =>
    if hasContext && jsTruthy (jget parsed "suggestion") then
      (shapeSuggestion (jget parsed "suggestion")).map
        (fun s => ⟨fis, shapeMacros (jget parsed "totalMacros"), some s⟩)
    else some ⟨fis, shapeMacros (jget parsed "totalMacros"), none⟩

/-- Build the `FoodAnalysis` from a validated decode (the object-literal
construction plus the conditional suggestion block of the source). -/
def buildResult (parsed : JSValue) (hasContext : Bool) : Option FoodAnalysis :=
  match jget parsed "foodItems" with
  | .arr xs => buildResultItems parsed hasContext xs
  | _ => none

/-! ## The extraction pipeline (food.service.ts:511-786) -/

/-- `fixAndParseJson` (food.service.ts:523): normalize arithmetic, repair,
re-isolate the outermost brace span (throwing when none exists), then
`JSON.parse`. -/
def fixAndParseJson (jsonStr : String) : Option JSValue :=
  let fixed := repairJsonString (fixMacrosInJsonString jsonStr)
  match braceSpanExtract fixed.data with
  | none => none
  | some sub => jsonParse ⟨sub⟩

/-- The two hard structure checks of the source (food.service.ts:543-549):
`foodItems` must be a truthy array, `totalMacros` a truthy value whose
`typeof` is `"object"`; a failed check throws, a passed pair of checks
proceeds to result construction. -/
def validateAndShape (parsed : JSValue) (hasContext : Bool) : Option FoodAnalysis :=
  match jgetStrict parsed "foodItems" with
  | none => none
  | some fi =>
    if !(jsTruthy fi && isArr fi) then none
    else
      match jgetStrict parsed "totalMacros" with
      | none => none
      | some tm =>
        if !(jsTruthy tm && (jsTypeof tm == "object")) then none
        else buildResult parsed hasContext

/-- One parse attempt: fix-and-parse, validate, then shape.  `none` is a
caught exception (parse error, validation error, or a shaping TypeError). -/
def attemptParse (text : String) (hasContext : Bool) : Option FoodAnalysis :=
  match fixAndParseJson text with
  | none => none
  | some parsed => validateAndShape parsed hasContext

/-- The local parse-retry loop (food.service.ts:538-619): up to `n`
attempts, re-applying `repairJsonString` to the text between attempts. -/
def parsePhase (hasContext : Bool) : Nat → String → Option FoodAnalysis
  | 0, _ => none
  | n + 1, text =>
    match attemptParse text hasContext with
    | some r => some r
    | none => parsePhase hasContext n (repairJsonString text)

/-- Truthiness of an optional string argument (`undefined` and the empty
string are falsy). -/
def optTruthy : Option String → Bool
  | none => false
  | some s => !s.isEmpty

/-- One regeneration attempt (food.service.ts:622-766).  The model
collaborator is a function from the attempt index to `none` (the call threw)
or `some text` (the returned content, after the `|| ""` coercion).  In image
mode a missing image payload throws before any model call; the caught
exception makes the attempt fail like a parse failure. -/
def regenAttempt (hasContext : Bool) (model : Nat → Option String)
    (base64Image : Option String) (isTextAnalysis : Bool)
    (foodName quantity : Option String) (j : Nat) : Option FoodAnalysis :=
  if isTextAnalysis && optTruthy foodName && optTruthy quantity then
    (model j).bind (fun s => attemptParse s hasContext)
  else if !optTruthy base64Image then none
  else (model j).bind (fun s => attemptParse s hasContext)

/-- The regeneration loop: up to `n` attempts starting at index `j`, with a
fixed backoff (pure in this embedding) between failures. -/
def regenPhase (hasContext : Bool) (model : Nat → Option String)
    (base64Image : Option String) (isTextAnalysis : Bool)
    (foodName quantity : Option String) : Nat → Nat → Option FoodAnalysis
  | 0, _ => none
  | n + 1, j =>
    match regenAttempt hasContext model base64Image isTextAnalysis foodName quantity j with
    | some r => some r
    | none =>
      regenPhase hasContext model base64Image isTextAnalysis foodName quantity n (j + 1)

/-- The fixed degraded fallback result (food.service.ts:771-785). -/
def fallbackResult (hasContext : Bool) : FoodAnalysis :=
  { foodItems :=
      [{ name := .str "Analysis failed"
         quantity := .str "Unknown"
         macros := zeroMacros }]
    totalMacros := zeroMacros
    suggestion :=
      if hasContext then
        some
          { shouldEat := false
            reason := .str "I couldn't analyze this properly after multiple attempts. Could you try uploading a clearer image or entering the food details manually?"
            recommendedQuantity := .undefined
            alternatives :=
              [.str "Try uploading a clearer image",
               .str "Enter the food details manually",
               .str "Contact support if this issue persists"]
            mealCompletionSuggestions := none
            completeMealMacros := none }
      else none }

/-- `parseFoodAnalysisResponseWithRetry` (food.service.ts:511-786): the
local parse loop, then the regeneration loop, then the fixed fallback.  The
single `maxRetries` parameter (default 3 in the source) bounds both loops. -/
def parseFoodAnalysisResponseWithRetry (response : String) (hasContext : Bool)
    (maxRetries : Nat) (model : Nat → Option String)
    (base64Image : Option String) (isTextAnalysis : Bool)
    (foodName quantity : Option String) : FoodAnalysis :=
  match parsePhase hasContext maxRetries response with
  | some r => r
  | none =>
    match regenPhase hasContext model base64Image isTextAnalysis foodName quantity
        maxRetries 0 with
    | some r => r
    | none => fallbackResult hasContext

/-! ## Helper lemmas -/

theorem replaceDriver_id (m : Matcher) :
    ∀ (fuel : Nat) (l : List Char), noMatchIn m l = true →
      replaceDriver m fuel l = l := by
  intro fuel
  induction fuel with
  | zero => intro l _; rfl
  | succ n ih =>
    intro l hl
    cases l with
    | nil => rfl
    | cons c t =>
      unfold noMatchIn at hl
      simp only [Bool.and_eq_true, Option.isNone_iff_eq_none] at hl
      unfold replaceDriver
      rw [hl.1, ih t hl.2]

theorem runReplace_id (m : Matcher) (s : String)
    (h : noMatchIn m s.data = true) : runReplace m s = s := by
  unfold runReplace
  rw [replaceDriver_id m _ _ h]

theorem dropUntil_head (c : Char) :
    ∀ l s, dropUntil c l = some s → ∃ t, s = c :: t := by
  intro l
  induction l with
  | nil => intro s h; simp [dropUntil] at h
  | cons x t ih =>
    intro s h
    unfold dropUntil at h
    by_cases hx : x = c
    · subst hx
      simp at h
      exact ⟨t, h.symm⟩
    · simp only [if_neg hx] at h
      exact ih s h

theorem dropUntil_refl (c : Char) (t : List Char) :
    dropUntil c (c :: t) = some (c :: t) := by
  simp [dropUntil]

theorem dropUntil_suffix (c : Char) :
    ∀ l s, dropUntil c l = some s → ∃ p, l = p ++ s := by
  intro l
  induction l with
  | nil => intro s h; simp [dropUntil] at h
  | cons x t ih =>
    intro s h
    unfold dropUntil at h
    by_cases hx : x = c
    · subst hx
      simp at h
      exact ⟨[], by simpa using h⟩
    · simp only [if_neg hx] at h
      obtain ⟨p, hp⟩ := ih s h
      exact ⟨x :: p, by simp [hp]⟩

theorem braceSpan_fix (s' : List Char) (u t' : List Char)
    (h1 : s' = '\x7b' :: u) (h2 : s'.reverse = '\x7d' :: t') :
    braceSpan s' = s' := by
  have e1 : dropUntil '\x7b' s' = some s' := by
    rw [h1]; exact dropUntil_refl _ _
  have e2 : dropUntil '\x7d' s'.reverse = some s'.reverse := by
    rw [h2]; exact dropUntil_refl _ _
  unfold braceSpan braceSpanExtract trimAfterLastClose
  rw [e1]
  simp [e2]

theorem braceSpan_idem (l : List Char) : braceSpan (braceSpan l) = braceSpan l := by
  cases h1 : dropUntil '\x7b' l with
  | none =>
    have hl : braceSpan l = l := by
      unfold braceSpan braceSpanExtract; rw [h1]; rfl
    rw [hl]; exact hl
  | some s =>
    cases h2 : trimAfterLastClose s with
    | none =>
      have hl : braceSpan l = l := by
        unfold braceSpan braceSpanExtract
        rw [h1]
        show (trimAfterLastClose s).getD l = l
        rw [h2]
        rfl
      rw [hl]; exact hl
    | some s' =>
      have hb : braceSpan l = s' := by
        unfold braceSpan braceSpanExtract
        rw [h1]
        show (trimAfterLastClose s).getD l = s'
        rw [h2]
        rfl
      rw [hb]
      obtain ⟨t0, hs⟩ := dropUntil_head _ _ _ h1
      unfold trimAfterLastClose at h2
      cases h3 : dropUntil '\x7d' s.reverse with
      | none => rw [h3] at h2; simp at h2
      | some r' =>
        rw [h3] at h2
        simp only [Option.map_some', Option.some.injEq] at h2
        obtain ⟨t', hr⟩ := dropUntil_head _ _ _ h3
        obtain ⟨p, hp⟩ := dropUntil_suffix _ _ _ h3
        have hs' : s' = r'.reverse := h2.symm
        have hrev : s'.reverse = '\x7d' :: t' := by rw [hs', hr]; simp [hr]
        have hpre : s = s' ++ p.reverse := by
          have hrv := congrArg List.reverse hp
          simp only [List.reverse_reverse, List.reverse_append] at hrv
          rw [hrv, hs']
        have hne : s' ≠ [] := by rw [hs', hr]; simp
        obtain ⟨a, u, hau⟩ : ∃ a u, s' = a :: u := by
          cases s' with
          | nil => exact absurd rfl hne
          | cons a u => exact ⟨a, u, rfl⟩
        have hinj : '\x7b' = a := by
          rw [hs, hau] at hpre
          simp only [List.cons_append, List.cons.injEq] at hpre
          exact hpre.1
        exact braceSpan_fix s' u t' (by rw [hau, ← hinj]) hrev

theorem clampNum_cases (n : JSNum) :
    clampNum n = .inf ∨ ∃ q : ℚ, clampNum n = .num q ∧ 0 ≤ q := by
  cases n with
  | num q => exact Or.inr ⟨max 0 q, rfl, le_max_left 0 q⟩
  | nan => exact Or.inr ⟨0, rfl, le_refl 0⟩
  | inf => exact Or.inl rfl
  | neginf => exact Or.inr ⟨0, rfl, le_refl 0⟩

theorem clampNum_finite (n : JSNum) (h : n ≠ .inf) :
    (clampNum n).isFinite = true := by
  cases n with
  | num q => rfl
  | nan => rfl
  | inf => exact absurd rfl h
  | neginf => rfl

theorem regenAttempt_none_of_garbage (hc : Bool) (model : Nat → Option String)
    (img : Option String) (isText : Bool) (fn qt : Option String) (j : Nat)
    (hG : ∀ s, model j = some s → attemptParse s hc = none) :
    regenAttempt hc model img isText fn qt j = none := by
  unfold regenAttempt
  have hbind : (model j).bind (fun s => attemptParse s hc) = none := by
    cases hM : model j with
    | none => rfl
    | some s => simpa using hG s hM
  split
  · exact hbind
  · split
    · rfl
    · exact hbind

theorem regenPhase_none (hc : Bool) (model : Nat → Option String)
    (img : Option String) (isText : Bool) (fn qt : Option String)
    (hG : ∀ j, regenAttempt hc model img isText fn qt j = none) :
    ∀ n j, regenPhase hc model img isText fn qt n j = none := by
  intro n
  induction n with
  | zero => intro j; rfl
  | succ m ih =>
    intro j
    unfold regenPhase
    rw [hG j]
    exact ih (j + 1)

theorem regenAttempt_missing_image (hc : Bool) (model : Nat → Option String)
    (img : Option String) (isText : Bool) (fn qt : Option String) (j : Nat)
    (hBranch : (isText && optTruthy fn && optTruthy qt) = false)
    (hImg : optTruthy img = false) :
    regenAttempt hc model img isText fn qt j = none := by
  unfold regenAttempt
  rw [hBranch, hImg]
  rfl

theorem regenAttempt_congr (hc : Bool) (model model' : Nat → Option String)
    (img : Option String) (isText : Bool) (fn qt : Option String) (j : Nat)
    (h : model' j = model j) :
    regenAttempt hc model' img isText fn qt j
      = regenAttempt hc model img isText fn qt j := by
  unfold regenAttempt
  rw [h]

theorem regenPhase_congr (hc : Bool) (model model' : Nat → Option String)
    (img : Option String) (isText : Bool) (fn qt : Option String) :
    ∀ n j, (∀ k, k < n → model' (j + k) = model (j + k)) →
      regenPhase hc model' img isText fn qt n j
        = regenPhase hc model img isText fn qt n j := by
  intro n
  induction n with
  | zero => intro j _; rfl
  | succ m ih =>
    intro j h
    unfold regenPhase
    rw [regenAttempt_congr hc model model' img isText fn qt j
      (by simpa using h 0 (Nat.succ_pos m))]
    cases regenAttempt hc model img isText fn qt j with
    | some r => rfl
    | none =>
      exact ih (j + 1) (fun k hk => by
        have := h (k + 1) (Nat.succ_lt_succ hk)
        simpa [Nat.add_assoc, Nat.add_comm 1 k] using this)

theorem shapeFoodItem_some (x : JSValue) (hx : isNullish x = false) :
    ∃ i, shapeFoodItem x = some i := by
  cases x <;> simp [isNullish] at hx ⊢ <;> simp [shapeFoodItem]

theorem shapeItems_some (xs : List JSValue)
    (h : ∀ x ∈ xs, isNullish x = false) :
    ∃ l, shapeItems xs = some l := by
  induction xs with
  | nil => exact ⟨[], rfl⟩
  | cons x t ih =>
    obtain ⟨i, hi⟩ := shapeFoodItem_some x (h x (List.mem_cons_self x t))
    obtain ⟨l, hl⟩ := ih (fun y hy => h y (List.mem_cons_of_mem x hy))
    exact ⟨i :: l, by unfold shapeItems; rw [hi, hl]; rfl⟩

theorem shapeMealItem_some (x : JSValue) (hx : isNullish x = false) :
    ∃ i, shapeMealItem x = some i := by
  cases x <;> simp [isNullish] at hx ⊢ <;> simp [shapeMealItem]

theorem shapeMealItems_some (xs : List JSValue)
    (h : ∀ x ∈ xs, isNullish x = false) :
    ∃ l, shapeMealItems xs = some l := by
  induction xs with
  | nil => exact ⟨[], rfl⟩
  | cons x t ih =>
    obtain ⟨i, hi⟩ := shapeMealItem_some x (h x (List.mem_cons_self x t))
    obtain ⟨l, hl⟩ := ih (fun y hy => h y (List.mem_cons_of_mem x hy))
    exact ⟨i :: l, by unfold shapeMealItems; rw [hi, hl]; rfl⟩

/-- The shaping code can only throw on a nullish element of `foodItems` or of
`suggestion.complementaryFoods`: this predicate says neither occurs. -/
def shapingSafe (parsed : JSValue) (hc : Bool) : Bool :=
  (match jget parsed "foodItems" with
   | .arr xs => xs.all (fun x => !isNullish x)
   | _ => true) &&
  (!(hc && jsTruthy (jget parsed "suggestion")) ||
    (match jget (jget parsed "suggestion") "complementaryFoods" with
     | .arr ys => ys.all (fun y => !isNullish y)
     | _ => true))

theorem shapeSuggestion_some (sg : JSValue)
    (h : (match jget sg "complementaryFoods" with
          | .arr ys => ys.all (fun y => !isNullish y)
          | _ => true) = true) :
    ∃ s, shapeSuggestion sg = some s := by
  unfold shapeSuggestion
  cases hcf : jget sg "complementaryFoods" with
  | arr ys =>
    rw [hcf] at h
    obtain ⟨l, hl⟩ := shapeMealItems_some ys (by
      intro y hy
      have := List.all_eq_true.mp h y hy
      simpa using this)
    simp [hl]
  | null => simp
  | undefined => simp
  | bool b => simp
  | num n => simp
  | str s => simp
  | obj kvs => simp

theorem buildResult_eq_items (parsed : JSValue) (hc : Bool) (xs : List JSValue)
    (hFI : jget parsed "foodItems" = .arr xs) :
    buildResult parsed hc = buildResultItems parsed hc xs := by
  unfold buildResult
  rw [hFI]

theorem buildResultItems_eq (parsed : JSValue) (hc : Bool) (xs : List JSValue)
    (fis : List FoodItem) (hfis : shapeItems xs = some fis) :
    buildResultItems parsed hc xs =
      if hc && jsTruthy (jget parsed "suggestion") then
        (shapeSuggestion (jget parsed "suggestion")).map
          (fun s => ⟨fis, shapeMacros (jget parsed "totalMacros"), some s⟩)
      else some ⟨fis, shapeMacros (jget parsed "totalMacros"), none⟩ := by
  unfold buildResultItems
  rw [hfis]

theorem buildResult_some (parsed : JSValue) (hc : Bool) (xs : List JSValue)
    (hFI : jget parsed "foodItems" = .arr xs)
    (hSafe : shapingSafe parsed hc = true) :
    ∃ r, buildResult parsed hc = some r := by
  unfold shapingSafe at hSafe
  rw [hFI] at hSafe
  simp only [Bool.and_eq_true] at hSafe
  obtain ⟨hItems, hSug⟩ := hSafe
  obtain ⟨fis, hfis⟩ := shapeItems_some xs (by
    intro x hx
    have := List.all_eq_true.mp hItems x hx
    simpa using this)
  rw [buildResult_eq_items parsed hc xs hFI, buildResultItems_eq parsed hc xs fis hfis]
  by_cases hcs : (hc && jsTruthy (jget parsed "suggestion")) = true
  · rw [if_pos hcs]
    rw [hcs] at hSug
    simp only [Bool.not_true, Bool.false_or] at hSug
    obtain ⟨s, hs⟩ := shapeSuggestion_some (jget parsed "suggestion") hSug
    exact ⟨_, by rw [hs]; rfl⟩
  · rw [if_neg hcs]
    exact ⟨_, rfl⟩

theorem attemptParse_eq (text : String) (hc : Bool) (parsed : JSValue)
    (hp : fixAndParseJson text = some parsed) :
    attemptParse text hc = validateAndShape parsed hc := by
  unfold attemptParse
  rw [hp]

theorem jget_nonNullish (parsed : JSValue) (k : String) (xs : List JSValue)
    (h : jget parsed k = .arr xs) : isNullish parsed = false := by
  cases parsed <;> first
    | rfl
    | exact absurd h (by simp [jget])

theorem jgetStrict_eq (parsed : JSValue) (k : String)
    (h : isNullish parsed = false) :
    jgetStrict parsed k = some (jget parsed k) := by
  cases parsed <;> simp [isNullish] at h ⊢ <;> rfl

theorem validateAndShape_pass (parsed : JSValue) (hc : Bool)
    (xs : List JSValue) (kvs : List (String × JSValue))
    (hFI : jget parsed "foodItems" = .arr xs)
    (hTM : jget parsed "totalMacros" = .obj kvs) :
    validateAndShape parsed hc = buildResult parsed hc := by
  have hnn := jget_nonNullish parsed _ xs hFI
  unfold validateAndShape
  rw [jgetStrict_eq parsed _ hnn, hFI, jgetStrict_eq parsed _ hnn, hTM]
  simp [jsTruthy, isArr, jsTypeof]

theorem retry_eq_fallback (response : String) (hc : Bool) (maxRetries : Nat)
    (model : Nat → Option String) (img : Option String) (isText : Bool)
    (fn qt : Option String)
    (hLocal : parsePhase hc maxRetries response = none)
    (hRegen : regenPhase hc model img isText fn qt maxRetries 0 = none) :
    parseFoodAnalysisResponseWithRetry response hc maxRetries model img isText fn qt
      = fallbackResult hc := by
  unfold parseFoodAnalysisResponseWithRetry
  rw [hLocal, hRegen]

theorem repairJsonString_eq_braceSpan (s : String)
    (h1 : noMatchIn matchTrailingComma s.data = true)
    (h2 : noMatchIn matchControlRun s.data = true)
    (h3 : noMatchIn matchBareKey s.data = true)
    (h4 : noMatchIn matchEscapedQuote s.data = true) :
    repairJsonString s = ⟨braceSpan s.data⟩ := by
  unfold repairJsonString
  rw [runReplace_id _ _ h1, runReplace_id _ _ h2, runReplace_id _ _ h3,
    runReplace_id _ _ h4]

/-- `.data` of a repaired string is always a `braceSpan` image, so the final
isolation step is stable on it. -/
theorem braceSpan_repair_data (x : String) :
    braceSpan (repairJsonString x).data = (repairJsonString x).data := by
  show braceSpan (braceSpan
      (runReplace matchEscapedQuote
        (runReplace matchBareKey
          (runReplace matchControlRun
            (runReplace matchTrailingComma x)))).data) = _
  exact braceSpan_idem _

/-! ## Concrete inputs used by the claims -/

/-- The raw model response of the banana scenario (spec section 8). -/
def bananaRaw : String :=
  "Sure! \x7b\"foodItems\":[\x7b\"name\":\"banana\",\"quantity\":\"1 medium\",\"macros\":\x7b\"calories\":1.01+2.03,\"protein\":\"1\",\"carbs\":27,\"fat\":0\x7d\x7d],\"totalMacros\":\x7b\"calories\":3.04,\"protein\":1,\"carbs\":27,\"fat\":0\x7d,\x7d  thanks"

/-- The clean minimal JSON input of spec section 8. -/
def cleanMinimalJson : String :=
  "\x7b\"foodItems\":[],\"totalMacros\":\x7b\"calories\":0,\"protein\":0,\"carbs\":0,\"fat\":0\x7d\x7d"

/-- A 309-digit numeric string, whose value exceeds the largest finite
double, so `parseFloat` overflows to `Infinity` on it. -/
def overBigDigits : String := String.mk (List.replicate 309 '9')

/-- Inputs whose numeric reading stays in the finite double range: everything
except the number `Infinity`, arrays (whose joined text can coerce to
`Infinity`), and strings whose cleaned digits parse at or beyond the
IEEE-754 overflow boundary. -/
def sanitizeFiniteInput : JSValue → Bool
  | .num .inf => false
  | .arr _ => false
  | .str s =>
    match parseFloatCleaned (cleanNumericChars s) with
    | none => true
    | some q => (jsNumOfRat q).isFinite
  | _ => true

/-! ## Claims -/

/-- Claim C7: the expression normalizer computes the four stated vectors —
`1.01+2.03` to `3.04`, `5.5-1.2` to `4.30`, `10/0` to `0.00`, `2*3.5` to
`7.00` — and the value substituted for a subtraction is clamped to a minimum
of 0. -/
theorem c7_normalizer_vectors :
    fixMacrosInJsonString "1.01+2.03" = "3.04" ∧
    fixMacrosInJsonString "5.5-1.2" = "4.30" ∧
    fixMacrosInJsonString "10/0" = "0.00" ∧
    fixMacrosInJsonString "2*3.5" = "7.00" ∧
    ∀ a b : ℚ, 0 ≤ subResult a b :=
  ⟨by with_unfolding_all rfl, by with_unfolding_all rfl,
    by with_unfolding_all rfl, by with_unfolding_all rfl,
    fun a b => le_max_left 0 (a - b)⟩

/-- Claim C4 counterexample: on the non-finite number `Infinity` the
sanitizer returns `Infinity`, and on a 309-digit numeric string `parseFloat`
overflows so the sanitizer again returns `Infinity` — in neither case a
finite number, so the claim that every input yields a finite number fails. -/
theorem c4_counterexample :
    sanitizeNumericValue (.num .inf) = .inf ∧ JSNum.inf.isFinite = false ∧
    sanitizeNumericValue (.str overBigDigits) = .inf := by
  refine ⟨rfl, rfl, ?_⟩
  with_unfolding_all rfl

/-- Claim C4 (amended): the sanitizer never throws and never returns NaN or
a negative number — every result is either `Infinity` or a non-negative
finite rational — and the result is finite on every input whose numeric
reading stays in the finite double range, i.e. every input except the
number `Infinity`, arrays (whose joined text can coerce to `Infinity`), and
numeric strings at or beyond the IEEE-754 overflow boundary (roughly 309
digits), for which `parseFloat` overflows and `Math.max(0, Infinity)` keeps
`Infinity`. -/
theorem c4_sanitizer_totality :
    (∀ v : JSValue, sanitizeNumericValue v = .inf ∨
      ∃ q : ℚ, sanitizeNumericValue v = .num q ∧ 0 ≤ q) ∧
    (∀ v : JSValue, sanitizeFiniteInput v = true →
      (sanitizeNumericValue v).isFinite = true) ∧
    sanitizeNumericValue (.num .inf) = .inf := by
  refine ⟨?_, ?_, rfl⟩
  · intro v
    cases v with
    | str s =>
      simp only [sanitizeNumericValue]
      cases parseFloatCleaned (cleanNumericChars s) with
      | none => exact Or.inr ⟨0, rfl, le_refl 0⟩
      | some q => exact clampNum_cases (jsNumOfRat q)
    | null => exact clampNum_cases (toNumber .null)
    | undefined => exact clampNum_cases (toNumber .undefined)
    | bool b => exact clampNum_cases (toNumber (.bool b))
    | num n => exact clampNum_cases (toNumber (.num n))
    | arr xs => exact clampNum_cases (toNumber (.arr xs))
    | obj kvs => exact clampNum_cases (toNumber (.obj kvs))
  · intro v hv
    cases v with
    | str s =>
      simp only [sanitizeFiniteInput] at hv
      simp only [sanitizeNumericValue]
      cases hpf : parseFloatCleaned (cleanNumericChars s) with
      | none => rfl
      | some q =>
        rw [hpf] at hv
        have hv' : (jsNumOfRat q).isFinite = true := hv
        refine clampNum_finite (jsNumOfRat q) ?_
        intro hinf
        rw [hinf] at hv'
        exact absurd hv' (by decide)
    | null => rfl
    | undefined => rfl
    | bool b => cases b <;> rfl
    | num n =>
      cases n with
      | num q => rfl
      | nan => rfl
      | inf => exact absurd hv (by simp [sanitizeFiniteInput])
      | neginf => rfl
    | arr xs => exact absurd hv (by simp [sanitizeFiniteInput])
    | obj kvs => rfl

/-- Claim C4 witness: a junk-laden numeric string is sanitized to a finite
non-negative number. -/
theorem c4_witness :
    sanitizeFiniteInput (.str "a1b2.c") = true ∧
    (sanitizeNumericValue (.str "a1b2.c")).isFinite = true :=
  ⟨by with_unfolding_all rfl,
    c4_sanitizer_totality.2.1 (.str "a1b2.c") (by with_unfolding_all rfl)⟩

/-- Claim C5 counterexample: the repairer is not idempotent — on `{,,}` one
pass leaves `{,}` and a second pass produces `{}`, because removing a
trailing comma can create a new trailing-comma match that only the next pass
sees. -/
theorem c5_counterexample :
    repairJsonString (repairJsonString "\x7b,,\x7d")
      ≠ repairJsonString "\x7b,,\x7d" := by
  decide

/-- Claim C5 (amended): the repairer is idempotent on every string whose
repaired form contains no further match of any of the four rewrites (no
comma-before-closer, no control character, no bare-key pattern, no escaped
single quote); in general a rewrite can create a fresh match — e.g. twin
trailing commas — and a second pass then differs. -/
theorem c5_repair_idempotent (x : String)
    (h1 : noMatchIn matchTrailingComma (repairJsonString x).data = true)
    (h2 : noMatchIn matchControlRun (repairJsonString x).data = true)
    (h3 : noMatchIn matchBareKey (repairJsonString x).data = true)
    (h4 : noMatchIn matchEscapedQuote (repairJsonString x).data = true) :
    repairJsonString (repairJsonString x) = repairJsonString x := by
  rw [repairJsonString_eq_braceSpan _ h1 h2 h3 h4, braceSpan_repair_data x]

/-- Claim C5 witness: instantiated on `{,}`, whose repaired form `{}` has no
residual match. -/
theorem c5_witness :
    repairJsonString (repairJsonString "\x7b,\x7d") = repairJsonString "\x7b,\x7d" :=
  c5_repair_idempotent "\x7b,\x7d" rfl rfl rfl rfl

/-- Claim C6 counterexample: `{\n}` is well-formed JSON (a newline is
insignificant whitespace), yet the repairer strips the newline as a control
character and returns `{}`, so well-formed JSON is not always left
unchanged. -/
theorem c6_counterexample :
    (jsonParse "\x7b\n\x7d").isSome = true ∧
    repairJsonString "\x7b\n\x7d" ≠ "\x7b\n\x7d" := by
  refine ⟨rfl, ?_⟩
  decide

/-- Claim C6 (amended): the repairer leaves unchanged every well-formed JSON
string that additionally contains no control characters, no textual match of
the trailing-comma or bare-key rewrites, no escaped single quote, and whose
outermost brace span is the whole string; JSON whose insignificant
whitespace includes control characters (or whose string literals contain
such textual patterns) can be mutated. -/
theorem c6_repair_noop_clean (s : String)
    (hJson : (jsonParse s).isSome = true)
    (h1 : noMatchIn matchTrailingComma s.data = true)
    (h2 : noMatchIn matchControlRun s.data = true)
    (h3 : noMatchIn matchBareKey s.data = true)
    (h4 : noMatchIn matchEscapedQuote s.data = true)
    (h5 : braceSpan s.data = s.data) :
    repairJsonString s = s := by
  rw [repairJsonString_eq_braceSpan s h1 h2 h3 h4, h5]

/-- Claim C6 witness: the clean minimal JSON of the spec is parsed by
JSON.parse and left unchanged by the repairer. -/
theorem c6_witness : repairJsonString cleanMinimalJson = cleanMinimalJson :=
  c6_repair_noop_clean cleanMinimalJson rfl rfl rfl rfl rfl rfl

/-- Claim C2: on the banana scenario text the first parse attempt of the
pipeline succeeds and yields exactly one food item named `banana` with
calories 3.04 and protein 1 (carbs 27, fat 0), and the same totals, despite
the surrounding prose, the inline `1.01+2.03`, and the trailing comma. -/
theorem c2_banana_scenario :
    attemptParse bananaRaw false =
      some
        ⟨[⟨.str "banana", .str "1 medium",
            ⟨.num (3.04 : ℚ), .num 1, .num 27, .num 0⟩⟩],
          ⟨.num (3.04 : ℚ), .num 1, .num 27, .num 0⟩, none⟩ := by
  with_unfolding_all rfl

/-- Claim C3 counterexample: a decode whose `foodItems` is a list and whose
`totalMacros` is an object can still fail the attempt — a `null` element of
`foodItems` makes the shaping throw, so the attempt does not terminate in
success. -/
theorem c3_counterexample :
    fixAndParseJson "\x7b\"foodItems\":[null],\"totalMacros\":\x7b\x7d\x7d"
        = some (.obj [("foodItems", .arr [.null]), ("totalMacros", .obj [])]) ∧
    isArr (.arr [JSValue.null]) = true ∧
    jsTypeof (.obj ([] : List (String × JSValue))) = "object" ∧
    attemptParse "\x7b\"foodItems\":[null],\"totalMacros\":\x7b\x7d\x7d" false
        = none :=
  ⟨rfl, rfl, rfl, rfl⟩

/-- Claim C3 (amended): whenever normalize-repair-parse yields a decode
whose `foodItems` field is a list and whose `totalMacros` field is a JSON
object, and additionally no element of `foodItems` (nor, when a suggestion
is shaped, of `suggestion.complementaryFoods`) is nullish, the parse attempt
terminates in success with a shaped `FoodAnalysis`. -/
theorem c3_parse_attempt_success (t : String) (hc : Bool) (parsed : JSValue)
    (xs : List JSValue) (kvs : List (String × JSValue))
    (hp : fixAndParseJson t = some parsed)
    (hFI : jget parsed "foodItems" = .arr xs)
    (hTM : jget parsed "totalMacros" = .obj kvs)
    (hSafe : shapingSafe parsed hc = true) :
    ∃ r, attemptParse t hc = some r := by
  rw [attemptParse_eq t hc parsed hp, validateAndShape_pass parsed hc xs kvs hFI hTM]
  exact buildResult_some parsed hc xs hFI hSafe

/-- Claim C3 witness: a concrete decode with an empty item list and an empty
totals object terminates in success. -/
theorem c3_witness :
    ∃ r, attemptParse "\x7b\"foodItems\":[],\"totalMacros\":\x7b\x7d\x7d" false
        = some r :=
  c3_parse_attempt_success _ false
    (.obj [("foodItems", .arr []), ("totalMacros", .obj [])]) [] []
    rfl rfl rfl rfl

/-- Claim C1: with any model invoker that only raises or returns text on
which a parse attempt fails, once the local parse budget is exhausted the
pipeline returns — without raising — exactly the fixed degraded result: one
food item named `Analysis failed` with all-zero macros, all-zero totals, and
a suggestion block (with a three-entry alternatives list) present exactly
when a context was supplied; moreover only the first `maxRetries` model
invocations can influence the outcome. -/
theorem c1_escalation_terminates (response : String) (hc : Bool)
    (maxRetries : Nat) (model : Nat → Option String) (img : Option String)
    (isText : Bool) (fn qt : Option String)
    (hG : ∀ j s, model j = some s → attemptParse s hc = none)
    (hLocal : parsePhase hc maxRetries response = none) :
    parseFoodAnalysisResponseWithRetry response hc maxRetries model img isText fn qt
        = fallbackResult hc ∧
    (fallbackResult hc).foodItems
        = [⟨.str "Analysis failed", .str "Unknown", zeroMacros⟩] ∧
    (fallbackResult hc).totalMacros = zeroMacros ∧
    ((fallbackResult hc).suggestion.isSome ↔ hc = true) ∧
    (hc = true → ∃ sg, (fallbackResult hc).suggestion = some sg ∧
      sg.alternatives.length = 3) ∧
    (∀ model' : Nat → Option String,
      (∀ j, j < maxRetries → model' j = model j) →
      parseFoodAnalysisResponseWithRetry response hc maxRetries model' img isText fn qt
        = fallbackResult hc) := by
  have hRA : ∀ j, regenAttempt hc model img isText fn qt j = none :=
    fun j => regenAttempt_none_of_garbage hc model img isText fn qt j
      (fun s h => hG j s h)
  have hRP : regenPhase hc model img isText fn qt maxRetries 0 = none :=
    regenPhase_none hc model img isText fn qt hRA maxRetries 0
  refine ⟨retry_eq_fallback _ _ _ _ _ _ _ _ hLocal hRP, rfl, rfl, ?_, ?_, ?_⟩
  · cases hc <;> simp [fallbackResult]
  · intro h
    subst h
    exact ⟨_, rfl, rfl⟩
  · intro model' hagree
    have hRP' : regenPhase hc model' img isText fn qt maxRetries 0 = none := by
      rw [regenPhase_congr hc model model' img isText fn qt maxRetries 0
        (fun k hk => by simpa using hagree k hk)]
      exact hRP
    exact retry_eq_fallback _ _ _ _ _ _ _ _ hLocal hRP'

/-- Claim C1 witness: garbage input and a model that always raises produce
the fixed fallback. -/
theorem c1_witness :
    parseFoodAnalysisResponseWithRetry "garbage" true 2 (fun _ => none)
        none false none none = fallbackResult true :=
  (c1_escalation_terminates "garbage" true 2 (fun _ => none) none false none none
    (fun j s h => by cases h) rfl).1

/-- Claim C8: when the image branch of regeneration is reached (text-mode
conditions not all satisfied) without truthy image data, every regeneration
attempt fails like a parse failure — for any model invoker, with the whole
regeneration budget consumed and no exception propagated — and once the
local parse budget is also exhausted the caller sees exactly the fixed
fallback. -/
theorem c8_missing_image_consumed (response : String) (hc : Bool)
    (maxRetries : Nat) (model : Nat → Option String) (img : Option String)
    (isText : Bool) (fn qt : Option String)
    (hBranch : (isText && optTruthy fn && optTruthy qt) = false)
    (hImg : optTruthy img = false)
    (hLocal : parsePhase hc maxRetries response = none) :
    parseFoodAnalysisResponseWithRetry response hc maxRetries model img isText fn qt
      = fallbackResult hc := by
  have hRA : ∀ j, regenAttempt hc model img isText fn qt j = none :=
    fun j => regenAttempt_missing_image hc model img isText fn qt j hBranch hImg
  exact retry_eq_fallback _ _ _ _ _ _ _ _ hLocal
    (regenPhase_none _ _ _ _ _ _ hRA _ _)

/-- Claim C8 witness: even a model that would return perfectly parseable
text cannot rescue an image-mode regeneration without image data — the
result is the fixed fallback. -/
theorem c8_witness :
    parseFoodAnalysisResponseWithRetry "x" false 3
        (fun _ => some "\x7b\"foodItems\":[],\"totalMacros\":\x7b\x7d\x7d")
        none true (some "apple") none
      = fallbackResult false :=
  c8_missing_image_consumed "x" false 3
    (fun _ => some "\x7b\"foodItems\":[],\"totalMacros\":\x7b\x7d\x7d")
    none true (some "apple") none rfl rfl rfl

/-- Claim C9 counterexample: the pipeline run on the spec's own clean
minimal JSON succeeds on the first attempt and returns an empty `foodItems`
list, so not every returned `FoodAnalysis` has non-empty `foodItems`. -/
theorem c9_counterexample :
    (parseFoodAnalysisResponseWithRetry cleanMinimalJson false 3 (fun _ => none)
        none false none none).foodItems = [] := by
  with_unfolding_all rfl

/-- Claim C9 (amended): the fallback path always returns a non-empty
`foodItems` list containing exactly the single placeholder item, for either
value of the context flag; a successful parse, however, preserves the
model's item list and may legitimately be empty. -/
theorem c9_fallback_nonempty (hc : Bool) :
    (fallbackResult hc).foodItems
        = [⟨.str "Analysis failed", .str "Unknown", zeroMacros⟩] ∧
    (fallbackResult hc).foodItems ≠ [] := by
  refine ⟨rfl, ?_⟩
  simp [fallbackResult]

/-- Claim C10: the `totalMacros` validation accepts any truthy value of
JavaScript object type — in particular every array — and shaping then reads
the four macro fields off it with falsy-to-0 defaulting, so a decode with
`foodItems` an empty array and `totalMacros` the empty array terminates in
success with an all-zero `totalMacros`. -/
theorem c10_array_totalMacros (hc : Bool) :
    attemptParse "\x7b\"foodItems\":[],\"totalMacros\":[]\x7d" hc
        = some ⟨[], zeroMacros, none⟩ ∧
    (∀ xs : List JSValue,
      (jsTruthy (.arr xs) && (jsTypeof (.arr xs) == "object")) = true) := by
  refine ⟨?_, fun xs => rfl⟩
  cases hc <;> with_unfolding_all rfl

end Calari
